import Mathlib

/-
Verification of the file-name generator (src/App.tsx).

Shallow embedding conventions:
* JS strings are Lean `String`s (lists of characters); `undefined` string
  fields obtained from array destructuring are modelled as `""`, which is
  faithful because every use site either tests truthiness (where `""` and
  `undefined` agree) or applies `||` (where they agree as well).
* JS objects used as string-keyed dictionaries (`HierarchyData`, the preset
  map) are modelled as insertion-ordered association lists, matching the
  enumeration order of JS object keys; keys are unique by construction.
* `toUpperCase` / the `\s` character class are modelled on their ASCII
  behaviour (`Char.toUpper`, the six ASCII whitespace characters); all string
  data in the claims is ASCII.
* React state is modelled by an explicit `AppState` record; each event
  handler / effect cascade is a function producing the settled state after
  all effects have run (a `useState` setter receiving a value equal to the
  current one does not re-render and effects whose dependencies are unchanged
  do not re-run, so such updates are modelled as the identity).
-/

namespace FNG

set_option maxRecDepth 200000

/-- The JS `\s` character class restricted to its ASCII members
(space, tab, line feed, vertical tab, form feed, carriage return). -/
def isWS (c : Char) : Bool :=
  c == ' ' || c == '\t' || c == '\n' || c == '\r' || c == '\x0b' || c == '\x0c'

/-- JS `String.prototype.trim` on a character list. -/
def trimL (l : List Char) : List Char :=
  ((l.dropWhile isWS).reverse.dropWhile isWS).reverse

/-- JS `String.prototype.trim`. -/
def trimS (s : String) : String := ⟨trimL s.data⟩

/-- JS `String.prototype.toUpperCase` (ASCII). -/
def upperS (s : String) : String := ⟨s.data.map Char.toUpper⟩

/-- JS `a || b` for strings: `a` when truthy (non-empty), else `b`. -/
def orElse (a b : String) : String := if a = "" then b else a

/-- Positional access to a destructured row: a missing column reads as `""`
(the model of `undefined`). -/
def col (r : List String) (i : Nat) : String := r.getD i ""

/-- Lookup in a string-keyed JS object modelled as an association list. -/
def lookupA {α : Type} (l : List (String × α)) (k : String) : Option α :=
  match l with
  | [] => none
  | e :: t => if e.1 = k then some e.2 else lookupA t k

/-- In-place update of the (unique) entry with key `k`, as in
`data[k].field = ...`. -/
def alterA {α : Type} (l : List (String × α)) (k : String) (f : α → α) :
    List (String × α) :=
  match l with
  | [] => []
  | e :: t => if e.1 = k then (e.1, f e.2) :: t else e :: alterA t k f

/-- Model of `Array.prototype.filter` with a decidable predicate. -/
def filterP {α : Type} (p : α → Prop) [DecidablePred p] : List α → List α
  | [] => []
  | a :: l => if p a then a :: filterP p l else filterP p l

/-- Model of `Array.prototype.find` with a decidable predicate. -/
def firstWhere {α : Type} (p : α → Prop) [DecidablePred p] : List α → Option α
  | [] => none
  | a :: l => if p a then some a else firstWhere p l

/-! ### The CSV row splitter

Both parsers split a row with
`row.match(/(".*?"|[^",]+)(?=\s*,|\s*$)/g)` and post-process each match with
`c.trim().replace(/^"|"$/g, '')`.  The regex machinery is embedded explicitly
below. -/

/-- The regex `.`: any character except a line terminator. -/
def dotOK (c : Char) : Bool := !(c == '\n' || c == '\r')

/-- The lookahead `(?=\s*,|\s*$)`: after optional whitespace, either the end
of the row or a comma. -/
def lkOK (l : List Char) : Bool :=
  match l.dropWhile isWS with
  | [] => true
  | c :: _ => c == ','

/-- The lazy branch `".*?"`, applied to the characters after the opening
quote: finds the earliest closing quote whose lookahead succeeds, returning
the enclosed content and the remainder after the closing quote. -/
def qScan : List Char → Option (List Char × List Char)
  | [] => none
  | c :: rest =>
    if c == '"' then
      if lkOK rest then some ([], rest)
      else
        match qScan rest with
        | some (inner, rem) => some (c :: inner, rem)
        | none => none
    else if dotOK c then
      match qScan rest with
      | some (inner, rem) => some (c :: inner, rem)
      | none => none
    else none

/-- Backtracking for the greedy branch `[^",]+`: `rev` is the reversed
candidate match; shrink from the right until the lookahead succeeds. -/
def rTry : List Char → List Char → Option (List Char × List Char)
  | [], _ => none
  | c :: rev, rest =>
    if lkOK rest then some ((c :: rev).reverse, rest) else rTry rev (c :: rest)

/-- Characters allowed inside the `[^",]` class. -/
def notFieldEnd (c : Char) : Bool := !(c == '"' || c == ',')

/-- One attempt of `(".*?"|[^",]+)(?=\s*,|\s*$)` at the current position,
returning the matched text and the remainder. -/
def matchAt (l : List Char) : Option (List Char × List Char) :=
  match l with
  | [] => none
  | c :: cs =>
    if c == '"' then
      match qScan cs with
      | some (inner, rem) => some ('"' :: (inner ++ ['"']), rem)
      | none => none
    else
      let run := cs.takeWhile notFieldEnd
      if notFieldEnd c then rTry ((c :: run).reverse) (cs.drop run.length) else none

/-- Model of `String.prototype.match` with the global flag: scan left to right,
emitting each match and resuming after it.  Every match consumes at least one
character, so `l.length` steps of fuel always suffice. -/
def scanAllF : Nat → List Char → List (List Char)
  | 0, _ => []
  | _, [] => []
  | fuel + 1, c :: cs =>
    match matchAt (c :: cs) with
    | some (m, rem) => m :: scanAllF fuel rem
    | none => scanAllF fuel cs

/-- All matches of the field regex in a row. -/
def scanAll (l : List Char) : List (List Char) := scanAllF l.length l

/-- Model of `c.replace(/^"|"$/g, '')`: one quote stripped from the start and one from
the end of what remains. -/
def stripQ (l : List Char) : List Char :=
  let l1 := match l with | '"' :: t => t | _ => l
  match l1.reverse with
  | '"' :: t => t.reverse
  | _ => l1

/-- Model of `split(/\r?\n/)`: `acc` holds the current line reversed; a `\r`
immediately before a `\n` belongs to the separator. -/
def splitLinesAux : List Char → List Char → List (List Char)
  | [], acc => [acc.reverse]
  | '\n' :: rest, acc =>
    (match acc with | '\r' :: acc2 => acc2.reverse | _ => acc.reverse) ::
      splitLinesAux rest []
  | c :: rest, acc => splitLinesAux rest (c :: acc)

/-- Row filter: `row.trim() && !row.trim().startsWith('"#')`. -/
def keepRowB (row : List Char) : Bool :=
  let t := trimL row
  !t.isEmpty && !(match t with | '"' :: '#' :: _ => true | _ => false)

/-- Split one row into its trimmed, quote-stripped columns. -/
def rowCols (row : List Char) : List String :=
  (scanAll row).map (fun m => ⟨stripQ (trimL m)⟩)

/-- The pipeline `csv.trim().split(/\r?\n/).slice(1)` followed by the row filter and the
per-row column split — the row pipeline shared by both parsers. -/
def csvRows (csv : String) : List (List String) :=
  (((splitLinesAux (trimL csv.data) []).drop 1).filter keepRowB).map rowCols

/-! ### Data model and parsers -/

/-- The source type `interface Project { name: string; abbr: string; }`. -/
structure Project where
  name : String
  abbr : String
deriving DecidableEq, Repr

/-- The source type `interface BrandData { abbr: string; projects: Project[]; }`. -/
structure BrandData where
  abbr : String
  projects : List Project
deriving DecidableEq, Repr

/-- The anonymous per-client record of `HierarchyData`:
`{ abbr: string; brands: { [brandName: string]: BrandData } }`. -/
structure ClientData where
  abbr : String
  brands : List (String × BrandData)
deriving DecidableEq, Repr

/-- The source type `interface HierarchyData { [clientName: string]: ... }` as an
insertion-ordered association list. -/
abbrev HierarchyData := List (String × ClientData)

/-- The source type `interface ListData { name: string; abbr: string; }`. -/
structure ListData where
  name : String
  abbr : String
deriving DecidableEq, Repr

/-- The statement `if (!data[clientName]) data[clientName] = { abbr: clientAbbr || clientName, brands: {} }`. -/
def ensureClient (d : HierarchyData) (r : List String) : HierarchyData :=
  if (lookupA d (col r 0)).isSome then d
  else d ++ [(col r 0, ⟨orElse (col r 1) (col r 0), []⟩)]

/-- The statement `if (brandName && !data[clientName].brands[brandName]) ... = { abbr: brandAbbr || brandName, projects: [] }`. -/
def ensureBrand (d : HierarchyData) (r : List String) : HierarchyData :=
  if col r 2 = "" then d
  else
    alterA d (col r 0) (fun cl =>
      if (lookupA cl.brands (col r 2)).isSome then cl
      else { cl with brands := cl.brands ++ [(col r 2, ⟨orElse (col r 3) (col r 2), []⟩)] })

/-- The project pushed by a row: `{ name: projName, abbr: projAbbr || projName }`. -/
def mkProj (r : List String) : Project := ⟨col r 4, orElse (col r 5) (col r 4)⟩

/-- The statement `if (projName && projName.toUpperCase() !== 'N/A' && brandName) ... .projects.push(...)`. -/
def pushProj (d : HierarchyData) (r : List String) : HierarchyData :=
  if col r 4 ≠ "" ∧ upperS (col r 4) ≠ "N/A" ∧ col r 2 ≠ "" then
    alterA d (col r 0) (fun cl =>
      { cl with brands := alterA cl.brands (col r 2) (fun bd =>
          { bd with projects := bd.projects ++ [mkProj r] }) })
  else d

/-- The body of `parseHierarchyData`'s `forEach` for one row
(`if (!clientName) return;` then the three phases above, in source order). -/
def hierStep (d : HierarchyData) (r : List String) : HierarchyData :=
  if col r 0 = "" then d else pushProj (ensureBrand (ensureClient d r) r) r

/-- The function `parseHierarchyData`. -/
def parseHierarchyData (csv : String) : HierarchyData :=
  (csvRows csv).foldl hierStep []

/-- The item built by `parseListData` for one row:
`{ name: name || '', abbr: abbr || name || '' }`. -/
def mkListItem (cols : List String) : ListData :=
  ⟨orElse (col cols 0) "", orElse (col cols 1) (orElse (col cols 0) "")⟩

/-- The function `parseListData` (rows mapped to items, then `.filter(item => item.name)`). -/
def parseListData (csv : String) : List ListData :=
  filterP (fun item => item.name ≠ "") ((csvRows csv).map mkListItem)

/-! ### Free-text part formatting -/

/-- Model of `replace(/\s+/g, '-')`: each maximal whitespace run becomes one hyphen
(the hyphen is emitted at the last character of the run). -/
def replaceWSL : List Char → List Char
  | [] => []
  | c :: cs =>
    if isWS c then
      match cs with
      | [] => ['-']
      | d :: _ => if isWS d then replaceWSL cs else '-' :: replaceWSL cs
    else c :: replaceWSL cs

/-- The function `formatPart = (part) => (part || '').trim().replace(/\s+/g, '-').toUpperCase()`
(`part || ''` is the identity on strings). -/
def formatPart (part : String) : String :=
  upperS ⟨replaceWSL (trimL (orElse part "").data)⟩

/-- The maximal whitespace-separated words of a character list, in order. -/
def wordsL : List Char → List (List Char)
  | [] => []
  | c :: cs =>
    if isWS c then wordsL cs
    else
      match cs with
      | [] => [[c]]
      | d :: _ =>
        if isWS d then [c] :: wordsL cs
        else
          match wordsL cs with
          | [] => [[c]]
          | w :: ws => (c :: w) :: ws

/-- Words joined by single hyphens. -/
def joinW : List (List Char) → List Char
  | [] => []
  | [w] => w
  | w :: ws => w ++ '-' :: joinW ws

/-- The specification's description of part formatting: trim, collapse each
internal whitespace run to a single hyphen (words joined by hyphens),
upper-case. -/
def specFormatPart (part : String) : String :=
  upperS ⟨joinW (wordsL (trimL part.data))⟩

/-! ### Application state and event handling

`AppState` collects the `useState` pieces of `FileNameGenerator` that the
claims are about, together with `stored`, the mirror of the
`localStorage` key `fileNameGeneratorPresets`.  Transient UI state
(`isLoading`, `error`, `copySuccess`, dropdown internals) is omitted. -/

/-- The snapshot type `Preset.values`. -/
structure PresetValues where
  selectedClient : String
  selectedBrand : String
  selectedProject : String
  selectedMedium : String
  selectedMaterial : String
  sizeWidth : String
  sizeHeight : String
  sizeUnit : String
  customTextParts : List String
deriving DecidableEq, Repr

/-- The source type `interface Preset { name: string; values: {...} }`. -/
structure Preset where
  name : String
  values : PresetValues
deriving DecidableEq, Repr

/-- The settled React state of `FileNameGenerator`. -/
structure AppState where
  hierarchyData : HierarchyData
  mediums : List ListData
  materials : List ListData
  selectedClient : String
  selectedBrand : String
  selectedProject : String
  selectedMedium : String
  selectedMaterial : String
  sizeWidth : String
  sizeHeight : String
  sizeUnit : String
  customTextParts : List String
  availableBrands : List String
  availableProjects : List Project
  generatedName : String
  isNameTooLong : Bool
  presets : List (String × Preset)
  stored : List (String × Preset)
  presetName : String
deriving DecidableEq, Repr

/-- The constant `MAX_FILENAME_LENGTH = 220`. -/
def MAX_FILENAME_LENGTH : Nat := 220

/-- The helper `getAbbr = (value, list) => (list.find(item => item.name === value)?.abbr || value).toUpperCase()`. -/
def getAbbr (value : String) (list : List ListData) : String :=
  upperS (orElse ((firstWhere (fun item => item.name = value) list).elim "" ListData.abbr) value)

/-- The name-assembly effect (lines 194-204): resolve each component, format
the free-text parts, drop falsy or `"N/A"` components, join with `_`. -/
def assembleName (s : AppState) : String :=
  let clientAbbr :=
    upperS (orElse ((lookupA s.hierarchyData s.selectedClient).elim "" ClientData.abbr)
      s.selectedClient)
  let brandAbbr :=
    upperS (orElse (((lookupA s.hierarchyData s.selectedClient).bind
      (fun cl => lookupA cl.brands s.selectedBrand)).elim "" BrandData.abbr) s.selectedBrand)
  let projectAbbr :=
    upperS (orElse ((firstWhere (fun p => p.name = s.selectedProject)
      s.availableProjects).elim "" Project.abbr) s.selectedProject)
  let sizeComponent :=
    if s.sizeWidth ≠ "" ∧ s.sizeHeight ≠ "" then
      s.sizeWidth ++ "x" ++ s.sizeHeight ++ s.sizeUnit
    else ""
  let formattedCustomParts := filterP (fun p => p ≠ "") (s.customTextParts.map formatPart)
  let parts := [clientAbbr, brandAbbr, projectAbbr, getAbbr s.selectedMedium s.mediums,
    getAbbr s.selectedMaterial s.materials, sizeComponent] ++ formattedCustomParts
  String.intercalate "_" (filterP (fun p => p ≠ "" ∧ upperS p ≠ "N/A") parts)

/-- The tail of the name-assembly effect:
`setGeneratedName(finalName); setIsNameTooLong(finalName.length > MAX_FILENAME_LENGTH);` -/
def refreshName (s : AppState) : AppState :=
  { s with generatedName := assembleName s,
           isNameTooLong := decide ((assembleName s).length > MAX_FILENAME_LENGTH) }

/-- The brand option set recomputed by the first cascade effect:
`selectedClient ? Object.keys(hierarchyData[selectedClient]?.brands || {}) : []`. -/
def brandKeys (h : HierarchyData) (c : String) : List String :=
  if c = "" then [] else (lookupA h c).elim [] (fun cl => cl.brands.map Prod.fst)

/-- The project option set recomputed by the second cascade effect:
`selectedBrand ? hierarchyData[selectedClient]?.brands[selectedBrand]?.projects || [] : []`. -/
def projectOptions (h : HierarchyData) (c b : String) : List Project :=
  if b = "" then []
  else ((lookupA h c).bind (fun cl => lookupA cl.brands b)).elim [] BrandData.projects

/-- A user input event on one of the selection fields. -/
inductive Event
  | setClient (c : String)
  | setBrand (b : String)
  | setProject (p : String)
  | setMedium (m : String)
  | setMaterial (m : String)
  | setWidth (w : String)
  | setHeight (h : String)
  | setUnit (u : String)
  | partChange (i : Nat) (v : String)
  | addPart
  | removePart (i : Nat)
deriving DecidableEq, Repr

/-- The settled state after an input event and all resulting effects, with
`isLoadingPreset.current = false`.  A setter receiving the current value does
not re-render and leaves the effects' dependencies unchanged, so that case is
the identity.  Changing the client runs both cascade effects (clearing brand
and hence project) and changing the brand runs the second; every change ends
with the name-assembly effect (`refreshName`). -/
def applyEvent (e : Event) (s : AppState) : AppState :=
  match e with
  | .setClient c =>
    if c = s.selectedClient then s
    else
      refreshName
        { s with selectedClient := c, selectedBrand := "", selectedProject := "",
                 availableBrands := brandKeys s.hierarchyData c, availableProjects := [] }
  | .setBrand b =>
    if b = s.selectedBrand then s
    else
      refreshName
        { s with selectedBrand := b, selectedProject := "",
                 availableProjects := projectOptions s.hierarchyData s.selectedClient b }
  | .setProject p =>
    if p = s.selectedProject then s else refreshName { s with selectedProject := p }
  | .setMedium m =>
    if m = s.selectedMedium then s else refreshName { s with selectedMedium := m }
  | .setMaterial m =>
    if m = s.selectedMaterial then s else refreshName { s with selectedMaterial := m }
  | .setWidth w =>
    if w = s.sizeWidth then s else refreshName { s with sizeWidth := w }
  | .setHeight h =>
    if h = s.sizeHeight then s else refreshName { s with sizeHeight := h }
  | .setUnit u =>
    if u = s.sizeUnit then s else refreshName { s with sizeUnit := u }
  | .partChange i v =>
    refreshName { s with customTextParts := s.customTextParts.set i v }
  | .addPart =>
    refreshName { s with customTextParts := s.customTextParts ++ [""] }
  | .removePart i =>
    refreshName { s with customTextParts := s.customTextParts.eraseIdx i }

/-- The spread update `{ ...presets, [name]: preset }`: replace in place when the key exists,
append otherwise. -/
def insertOrReplace (l : List (String × Preset)) (k : String) (v : Preset) :
    List (String × Preset) :=
  if (lookupA l k).isSome then alterA l k (fun _ => v) else l ++ [(k, v)]

/-- The alert text of `handleSavePreset`. -/
def SAVE_ALERT : String := "Por favor, ingresa un nombre para el preset."

/-- The handler `handleSavePreset`, returning the new state and the alert message shown,
if any.  The emptiness check is on the trimmed name; the map key is the
verbatim name; the updated map is written back to `localStorage` wholesale. -/
def handleSavePreset (s : AppState) : AppState × Option String :=
  if trimS s.presetName = "" then (s, some SAVE_ALERT)
  else
    let newPreset : Preset := ⟨s.presetName,
      ⟨s.selectedClient, s.selectedBrand, s.selectedProject, s.selectedMedium,
       s.selectedMaterial, s.sizeWidth, s.sizeHeight, s.sizeUnit, s.customTextParts⟩⟩
    let updated := insertOrReplace s.presets s.presetName newPreset
    ({ s with presets := updated, stored := updated, presetName := "" }, none)

/-- The handler `handleLoadPreset`, as the settled state after the nested `setTimeout`
sequence.  While `isLoadingPreset.current` is true both cascade effects
return early, so the restored brand and project are not cleared and the
option sets `availableBrands` / `availableProjects` are left as they were;
the unguarded name-assembly effect still runs.  `values.x || ''` is the
identity on strings and `values.customTextParts || ['']` is the identity on
lists (an empty JS array is truthy); `values.sizeUnit || 'px'` is not. -/
def handleLoadPreset (s : AppState) (name : String) : AppState :=
  match lookupA s.presets name with
  | none => s
  | some p =>
    refreshName { s with
      selectedClient := orElse p.values.selectedClient "",
      selectedMedium := orElse p.values.selectedMedium "",
      selectedMaterial := orElse p.values.selectedMaterial "",
      sizeWidth := orElse p.values.sizeWidth "",
      sizeHeight := orElse p.values.sizeHeight "",
      sizeUnit := orElse p.values.sizeUnit "px",
      customTextParts := p.values.customTextParts,
      selectedBrand := orElse p.values.selectedBrand "",
      selectedProject := orElse p.values.selectedProject "" }

/-- The handler `handleCopy`: the text sent to the clipboard, or `none` when the button
does nothing (`if (!generatedName || isNameTooLong) return;`). -/
def handleCopy (s : AppState) : Option String :=
  if s.generatedName = "" ∨ s.isNameTooLong = true then none else some s.generatedName

/-- The initial state of `FileNameGenerator` once the three fetches have
delivered `h`, `ms` and `mats`. -/
def mkInitialState (h : HierarchyData) (ms mats : List ListData) : AppState :=
  { hierarchyData := h, mediums := ms, materials := mats,
    selectedClient := "", selectedBrand := "", selectedProject := "",
    selectedMedium := "", selectedMaterial := "",
    sizeWidth := "", sizeHeight := "", sizeUnit := "px",
    customTextParts := [""], availableBrands := [], availableProjects := [],
    generatedName := "", isNameTooLong := false,
    presets := [], stored := [], presetName := "" }

/-! ### Specification-side descriptions

These definitions restate, in the specification's vocabulary, what the
assembled name and the parsed hierarchy are supposed to be; the theorems
below compare them with the code-derived definitions. -/

/-- Resolved client component: hierarchy abbreviation at the selected client,
falling back to the raw value, upper-cased. -/
def resolvedClient (s : AppState) : String :=
  upperS (orElse ((lookupA s.hierarchyData s.selectedClient).elim "" ClientData.abbr)
    s.selectedClient)

/-- Resolved brand component. -/
def resolvedBrand (s : AppState) : String :=
  upperS (orElse (((lookupA s.hierarchyData s.selectedClient).bind
    (fun cl => lookupA cl.brands s.selectedBrand)).elim "" BrandData.abbr) s.selectedBrand)

/-- Resolved project component (looked up in the current project options). -/
def resolvedProject (s : AppState) : String :=
  upperS (orElse ((firstWhere (fun p => p.name = s.selectedProject)
    s.availableProjects).elim "" Project.abbr) s.selectedProject)

/-- The size token: width `x` height followed by the unit, rendered only when
both width and height are non-empty. -/
def sizeToken (s : AppState) : String :=
  if s.sizeWidth ≠ "" ∧ s.sizeHeight ≠ "" then
    s.sizeWidth ++ "x" ++ s.sizeHeight ++ s.sizeUnit
  else ""

/-- The formatted free-text parts, empty ones dropped. -/
def formattedParts (s : AppState) : List String :=
  filterP (fun p => p ≠ "") (s.customTextParts.map formatPart)

/-- The components in the order the code emits them: client, brand, project,
medium, material, size token, then the free-text parts. -/
def componentsInOrder (s : AppState) : List String :=
  [resolvedClient s, resolvedBrand s, resolvedProject s,
   getAbbr s.selectedMedium s.mediums, getAbbr s.selectedMaterial s.materials,
   sizeToken s] ++ formattedParts s

/-- The components that survive the drop rule (non-empty and not
case-insensitively `"N/A"`). -/
def keptComponents (s : AppState) : List String :=
  filterP (fun p => p ≠ "" ∧ upperS p ≠ "N/A") (componentsInOrder s)

/-- The assembly in the order stated by claim C1: client, brand, project,
size token, medium, material, then the free-text parts. -/
def assembleClaimOrder (s : AppState) : String :=
  String.intercalate "_" (filterP (fun p => p ≠ "" ∧ upperS p ≠ "N/A")
    ([resolvedClient s, resolvedBrand s, resolvedProject s, sizeToken s,
      getAbbr s.selectedMedium s.mediums, getAbbr s.selectedMaterial s.materials] ++
      formattedParts s))

/-- Abbreviation of a parsed client. -/
def cAbbrLookup (d : HierarchyData) (c : String) : Option String :=
  (lookupA d c).map ClientData.abbr

/-- The parsed brand record under client `c` and brand `b`. -/
def bLookup (d : HierarchyData) (c b : String) : Option BrandData :=
  (lookupA d c).bind (fun cl => lookupA cl.brands b)

/-- Specification of the client abbreviation: taken from the first row whose
client column is `c`, defaulting to the client name. -/
def clientAbbrSpec (rows : List (List String)) (c : String) : Option String :=
  (firstWhere (fun r => col r 0 = c) rows).map (fun r => orElse (col r 1) c)

/-- Specification of the project list of brand `b` under client `c`: the rows
naming that client and brand whose project name is present and not
case-insensitively `"N/A"`, in row order, duplicates kept. -/
def projSpec (rows : List (List String)) (c b : String) : List Project :=
  (filterP (fun r => col r 0 = c ∧ col r 2 = b ∧ col r 4 ≠ "" ∧
    upperS (col r 4) ≠ "N/A") rows).map mkProj

/-- Specification of the brand record: created by the first row naming the
brand within its client (that row's abbreviation wins, defaulting to the
brand name), carrying `projSpec`. -/
def brandSpec (rows : List (List String)) (c b : String) : Option BrandData :=
  (firstWhere (fun r => col r 0 = c ∧ col r 2 = b) rows).map
    (fun r => BrandData.mk (orElse (col r 3) b) (projSpec rows c b))

/-- Every parsed client, brand and project has a non-empty display name and a
non-empty abbreviation. -/
def goodHier (d : HierarchyData) : Prop :=
  ∀ e ∈ d, e.1 ≠ "" ∧ e.2.abbr ≠ "" ∧
    ∀ be ∈ e.2.brands, be.1 ≠ "" ∧ be.2.abbr ≠ "" ∧
      ∀ p ∈ be.2.projects, p.name ≠ "" ∧ p.abbr ≠ ""

/-! ### Concrete inputs for the worked examples and counterexamples -/

/-- Hierarchy sheet of the worked example (header row plus the example row). -/
def exHierCsv : String := "Client,Abbr,Brand,Abbr,Project,Abbr\nAcme,ACM,Nova,NV,Launch,LNC"

/-- Medium sheet of the worked example. -/
def exMediumCsv : String := "Name,Abbr\nDigital,DIG"

/-- Material sheet of the worked example. -/
def exMaterialCsv : String := "Name,Abbr\nPNG,PNG"

/-- Freshly loaded state of the worked example. -/
def exState0 : AppState :=
  mkInitialState (parseHierarchyData exHierCsv) (parseListData exMediumCsv)
    (parseListData exMaterialCsv)

/-- The worked example's selections, applied as user events: client `Acme`,
brand `Nova`, project `Launch`, medium `Digital`, material `PNG`, size
`1080` by `1920` in `px` (the initial unit), free-text part `v2`. -/
def exState : AppState :=
  applyEvent (.partChange 0 "v2") (applyEvent (.setHeight "1920")
    (applyEvent (.setWidth "1080") (applyEvent (.setMaterial "PNG")
      (applyEvent (.setMedium "Digital") (applyEvent (.setProject "Launch")
        (applyEvent (.setBrand "Nova") (applyEvent (.setClient "Acme") exState0)))))))

/-- A state with a medium and a size but no other components, separating the
two component orders. -/
def orderState : AppState :=
  applyEvent (.setHeight "2") (applyEvent (.setWidth "1")
    (applyEvent (.setMedium "M") (mkInitialState [] [⟨"M", "MED"⟩] [])))

/-- A state whose brand is selected, for re-selecting the same client. -/
def cascadeState : AppState :=
  { mkInitialState [] [] [] with selectedClient := "A", selectedBrand := "B" }

/-- A stored preset whose snapshot has an empty size unit. -/
def emptyUnitPreset : Preset := ⟨"P", ⟨"", "", "", "", "", "", "", "", [""]⟩⟩

/-- A state holding `emptyUnitPreset` under the name `P`. -/
def loadState : AppState :=
  { mkInitialState [] [] [] with presets := [("P", emptyUnitPreset)], sizeUnit := "cm" }

/-- Initial state with the preset name `x` typed in. -/
def saveState1 : AppState := { mkInitialState [] [] [] with presetName := "x" }

/-- After saving under `x`. -/
def saveState2 : AppState := (handleSavePreset saveState1).1

/-- With the preset name `  x  ` typed in. -/
def saveState3 : AppState := { saveState2 with presetName := "  x  " }

/-- After saving under `  x  `. -/
def saveState4 : AppState := (handleSavePreset saveState3).1

/-- Hierarchy sheet used by the parser witnesses: a repeated client/brand
with changed abbreviations (the first must win), a project with a missing
abbreviation, an `n/a` project and a second brand with a quoted-empty
abbreviation. -/
def wHierCsv : String :=
  "Client,Abbr,Brand,Abbr,Project,Abbr\nA,A1,B,B1,P,P1\nA,A2,B,B2,Q,\nA,A2,B,B9,n/a,x\nA,A3,C,\"\",R,QQ"

/-- Hierarchy sheet with quoted-empty abbreviation columns, exercising the
fallback of abbreviations to display names. -/
def wDefCsv : String := "Client,Abbr,Brand,Abbr,Project,Abbr\nA,\"\",B,\"\",P,"

/-- The events that touch neither client, brand nor project. -/
def nonCascading : Event → Bool
  | .setMedium _ => true
  | .setMaterial _ => true
  | .setWidth _ => true
  | .setHeight _ => true
  | .setUnit _ => true
  | .partChange _ _ => true
  | .addPart => true
  | .removePart _ => true
  | _ => false

/-- A 221-character client value, long enough to exceed the length limit. -/
def longName : String := ⟨List.replicate 221 'A'⟩

/-- A state whose assembled name has 221 characters. -/
def longState : AppState := { mkInitialState [] [] [] with selectedClient := longName }

/-! ## Helper lemmas -/

theorem orElse_empty_right (a : String) : orElse a "" = a := by
  by_cases h : a = "" <;> simp [orElse, h]

theorem orElse_ne_empty (a : String) {b : String} (hb : b ≠ "") : orElse a b ≠ "" := by
  by_cases h : a = "" <;> simp [orElse, h, hb]

theorem mem_filterP {α : Type} {p : α → Prop} [DecidablePred p] :
    ∀ {l : List α} {a : α}, a ∈ filterP p l → p a ∧ a ∈ l := by
  intro l
  induction l with
  | nil => intro a h; simp [filterP] at h
  | cons x xs ih =>
    intro a h
    unfold filterP at h
    by_cases hx : p x
    · rw [if_pos hx] at h
      rcases List.mem_cons.mp h with h1 | h2
      · exact ⟨h1 ▸ hx, h1 ▸ List.mem_cons_self x xs⟩
      · exact ⟨(ih h2).1, List.mem_cons_of_mem x (ih h2).2⟩
    · rw [if_neg hx] at h
      exact ⟨(ih h).1, List.mem_cons_of_mem x (ih h).2⟩

theorem filterP_map {α β : Type} (p : β → Prop) [DecidablePred p] (f : α → β) :
    ∀ l : List α, filterP p (l.map f) = (filterP (fun a => p (f a)) l).map f := by
  intro l
  induction l with
  | nil => rfl
  | cons x xs ih => by_cases h : p (f x) <;> simp [filterP, h, ih]

theorem lookupA_append_ne {α : Type} (l : List (String × α)) (k : String) (v : α)
    (k' : String) (h : k ≠ k') : lookupA (l ++ [(k, v)]) k' = lookupA l k' := by
  induction l with
  | nil => simp [lookupA, h]
  | cons e t ih => by_cases he : e.1 = k' <;> simp [lookupA, he, ih]

theorem lookupA_append_self {α : Type} {l : List (String × α)} {k : String} (v : α)
    (h : lookupA l k = none) : lookupA (l ++ [(k, v)]) k = some v := by
  induction l with
  | nil => simp [lookupA]
  | cons e t ih =>
    unfold lookupA at h ⊢
    by_cases he : e.1 = k
    · simp [he] at h
    · simp only [List.cons_append, if_neg he] at h ⊢
      exact ih h

theorem lookupA_alterA_self {α : Type} (l : List (String × α)) (k : String) (f : α → α) :
    lookupA (alterA l k f) k = (lookupA l k).map f := by
  induction l with
  | nil => simp [lookupA, alterA]
  | cons e t ih => by_cases he : e.1 = k <;> simp [lookupA, alterA, he, ih]

theorem lookupA_alterA_ne {α : Type} (l : List (String × α)) (k : String) (f : α → α)
    (k' : String) (h : k' ≠ k) : lookupA (alterA l k f) k' = lookupA l k' := by
  induction l with
  | nil => rfl
  | cons e t ih =>
    unfold alterA
    by_cases he : e.1 = k
    · simp [lookupA, he, Ne.symm h]
    · by_cases he' : e.1 = k' <;> simp [lookupA, he, he', ih, h, Ne.symm h]

theorem alterA_of_lookupA_none {α : Type} {l : List (String × α)} {k : String}
    (f : α → α) (h : lookupA l k = none) : alterA l k f = l := by
  induction l with
  | nil => rfl
  | cons e t ih =>
    unfold lookupA at h
    by_cases he : e.1 = k
    · simp [he] at h
    · simp only [if_neg he] at h
      simp [alterA, he, ih h]

theorem forall_mem_alterA {α : Type} {P : String × α → Prop} {l : List (String × α)}
    {k : String} {f : α → α} (hl : ∀ e ∈ l, P e) (hf : ∀ v, P (k, v) → P (k, f v)) :
    ∀ e ∈ alterA l k f, P e := by
  induction l with
  | nil => intro e he; simp [alterA] at he
  | cons x xs ih =>
    obtain ⟨x1, x2⟩ := x
    intro e he
    unfold alterA at he
    by_cases hx : x1 = k
    · simp only [if_pos hx] at he
      rcases List.mem_cons.mp he with h1 | h2
      · subst h1; subst hx
        exact hf x2 (hl (x1, x2) (List.mem_cons_self _ xs))
      · exact hl e (List.mem_cons_of_mem _ h2)
    · simp only [if_neg hx] at he
      rcases List.mem_cons.mp he with h1 | h2
      · exact h1 ▸ hl (x1, x2) (List.mem_cons_self _ xs)
      · exact ih (fun e' he' => hl e' (List.mem_cons_of_mem _ he')) e h2

theorem lookupA_insertOrReplace_self (l : List (String × Preset)) (k : String) (v : Preset) :
    lookupA (insertOrReplace l k v) k = some v := by
  unfold insertOrReplace
  by_cases h : (lookupA l k).isSome
  · rw [if_pos h, lookupA_alterA_self]
    obtain ⟨x, hx⟩ := Option.isSome_iff_exists.mp h
    simp [hx]
  · rw [if_neg h]
    exact lookupA_append_self v (Option.not_isSome_iff_eq_none.mp h)

theorem lookupA_insertOrReplace_ne (l : List (String × Preset)) (k : String) (v : Preset)
    (k' : String) (h : k' ≠ k) : lookupA (insertOrReplace l k v) k' = lookupA l k' := by
  unfold insertOrReplace
  split
  · exact lookupA_alterA_ne l k _ k' h
  · exact lookupA_append_ne l k v k' (Ne.symm h)

/-! ## Claim C1 -/

/-- C1 (counterexample): the code emits medium and material *before* the
size token: in a state with only a medium (abbreviated `MED`) and a size
`1x2px`, the generated name is `MED_1x2px`, while the order stated by the
claim would produce `1x2px_MED`. -/
theorem c1_counterexample :
    orderState.generatedName = "MED_1x2px" ∧
    assembleClaimOrder orderState = "1x2px_MED" ∧
    orderState.generatedName ≠ assembleClaimOrder orderState := by
  refine ⟨?_, ?_, ?_⟩ <;> decide

/-- C1 (amended): the generated name is the `_`-join of the resolved
components in the fixed order client, brand, project, medium, material, size
token, then the formatted free-text parts, after dropping every component
that is empty or case-insensitively equal to `N/A`; consequently every kept
component is non-empty and never equals `N/A` in any case. -/
theorem c1_assembly :
    ∀ s : AppState,
      assembleName s = String.intercalate "_" (keptComponents s) ∧
      ∀ part ∈ keptComponents s, part ≠ "" ∧ upperS part ≠ "N/A" := by
  intro s
  constructor
  · rfl
  · intro part hp
    exact (mem_filterP hp).1

/-- C1 (witness): the amended assembly at a concrete state, with the kept
component `MED`. -/
theorem c1_assembly_witness :
    assembleName orderState = String.intercalate "_" (keptComponents orderState) ∧
    ("MED" ≠ "" ∧ upperS "MED" ≠ "N/A") :=
  ⟨(c1_assembly orderState).1, (c1_assembly orderState).2 "MED" (by decide)⟩

/-! ## Claim C2 -/

/-- C2 (counterexample): with the hierarchy row `Acme,ACM,Nova,NV,Launch,LNC`,
medium `Digital,DIG`, material `PNG,PNG`, size `1080` by `1920` in `px` and
free-text part `v2`, the generated name is
`ACM_NV_LNC_DIG_PNG_1080x1920px_V2` — the size component keeps the lowercase
`x` and the unit's own case, so it is not the claimed
`ACM_NV_LNC_DIG_PNG_1080X1920PX_V2`. -/
theorem c2_counterexample :
    exState.generatedName = "ACM_NV_LNC_DIG_PNG_1080x1920px_V2" ∧
    ("ACM_NV_LNC_DIG_PNG_1080x1920px_V2" : String) ≠
      "ACM_NV_LNC_DIG_PNG_1080X1920PX_V2" := by
  constructor
  · decide
  · decide

/-- C2 (amended): in that scenario the generated name equals exactly
`ACM_NV_LNC_DIG_PNG_1080x1920px_V2` (the size token is emitted verbatim, with
a lowercase `x` separator and the unit as entered). -/
theorem c2_generated_name : exState.generatedName = "ACM_NV_LNC_DIG_PNG_1080x1920px_V2" := by
  decide

/-! ## Claim C5 -/

/-- C5 (counterexample): re-selecting the currently selected client does not
reset the brand: with client `A` and brand `B` selected, the event
`setClient "A"` leaves the brand `B` in place, so selecting a client does
not always set the brand field to empty. -/
theorem c5_counterexample :
    cascadeState.selectedClient = "A" ∧ cascadeState.selectedBrand = "B" ∧
    (applyEvent (Event.setClient "A") cascadeState).selectedBrand ≠ "" := by
  refine ⟨rfl, rfl, ?_⟩
  decide

/-- C5 (amended): selecting a client with a value *different* from the
current one resets brand and project to empty and recomputes the brand
option set from the hierarchy; selecting a different brand resets project to
empty and recomputes the project option set, leaving the client unchanged;
medium, material, size and free-text events never change client, brand or
project; and re-selecting the identical client value is a no-op. -/
theorem c5_cascade :
    (∀ (s : AppState) (c : String), c ≠ s.selectedClient →
      (applyEvent (Event.setClient c) s).selectedBrand = "" ∧
      (applyEvent (Event.setClient c) s).selectedProject = "" ∧
      (applyEvent (Event.setClient c) s).availableBrands = brandKeys s.hierarchyData c) ∧
    (∀ (s : AppState) (b : String), b ≠ s.selectedBrand →
      (applyEvent (Event.setBrand b) s).selectedProject = "" ∧
      (applyEvent (Event.setBrand b) s).availableProjects =
        projectOptions s.hierarchyData s.selectedClient b ∧
      (applyEvent (Event.setBrand b) s).selectedClient = s.selectedClient) ∧
    (∀ (s : AppState) (e : Event), nonCascading e = true →
      (applyEvent e s).selectedClient = s.selectedClient ∧
      (applyEvent e s).selectedBrand = s.selectedBrand ∧
      (applyEvent e s).selectedProject = s.selectedProject) ∧
    (∀ s : AppState, applyEvent (Event.setClient s.selectedClient) s = s) := by
  refine ⟨?_, ?_, ?_, ?_⟩
  · intro s c h
    simp [applyEvent, if_neg h, refreshName]
  · intro s b h
    simp [applyEvent, if_neg h, refreshName]
  · intro s e he
    cases e <;> simp [nonCascading] at he <;>
      simp only [applyEvent] <;>
      first
        | (split <;> simp [refreshName])
        | simp [refreshName]
  · intro s
    simp [applyEvent]

/-- C5 (witness): the amended cascade rule at a concrete state. -/
theorem c5_cascade_witness :
    ("Z" ≠ cascadeState.selectedClient) ∧
    ((applyEvent (Event.setClient "Z") cascadeState).selectedBrand = "" ∧
     (applyEvent (Event.setClient "Z") cascadeState).selectedProject = "" ∧
     (applyEvent (Event.setClient "Z") cascadeState).availableBrands =
       brandKeys cascadeState.hierarchyData "Z") :=
  ⟨by decide, c5_cascade.1 cascadeState "Z" (by decide)⟩

/-! ## Claim C6 -/

theorem head?_dropWhile_isWS (l : List Char) :
    ∀ ch, (l.dropWhile isWS).head? = some ch → isWS ch = false := by
  induction l with
  | nil => intro ch h; simp at h
  | cons c cs ih =>
    intro ch h
    rw [List.dropWhile_cons] at h
    by_cases hc : isWS c = true
    · rw [if_pos hc] at h
      exact ih ch h
    · rw [if_neg hc] at h
      simp at h
      simp only [Bool.not_eq_true] at hc
      rw [← h]
      exact hc

theorem getLast?_dropWhile_of_ne_nil (p : Char → Bool) (l : List Char)
    (h : l.dropWhile p ≠ []) : (l.dropWhile p).getLast? = l.getLast? := by
  induction l with
  | nil => simp at h
  | cons c cs ih =>
    rw [List.dropWhile_cons] at h ⊢
    by_cases hc : p c = true
    · rw [if_pos hc] at h ⊢
      have hcs : cs ≠ [] := by
        intro hnil
        rw [hnil] at h
        simp at h
      rw [ih h]
      cases cs with
      | nil => exact absurd rfl hcs
      | cons d t => rw [List.getLast?_cons_cons]
    · rw [if_neg hc]

theorem trimL_head (l : List Char) :
    ∀ ch, (trimL l).head? = some ch → isWS ch = false := by
  intro ch h
  unfold trimL at h
  rw [List.head?_reverse] at h
  have hne : List.dropWhile isWS ((l.dropWhile isWS).reverse) ≠ [] := by
    intro hnil
    rw [hnil] at h
    simp at h
  rw [getLast?_dropWhile_of_ne_nil _ _ hne, List.getLast?_reverse] at h
  exact head?_dropWhile_isWS l ch h

theorem trimL_getLast (l : List Char) :
    ∀ ch, (trimL l).getLast? = some ch → isWS ch = false := by
  intro ch h
  unfold trimL at h
  rw [List.getLast?_reverse] at h
  exact head?_dropWhile_isWS _ ch h

theorem wordsL_cons_cons (c d : Char) (t : List Char) :
    wordsL (c :: d :: t) =
      if isWS c = true then wordsL (d :: t)
      else if isWS d = true then [c] :: wordsL (d :: t)
      else match wordsL (d :: t) with
           | [] => [[c]]
           | w :: ws => (c :: w) :: ws := rfl

theorem replaceWSL_cons_cons (c d : Char) (t : List Char) :
    replaceWSL (c :: d :: t) =
      if isWS c = true then
        (if isWS d = true then replaceWSL (d :: t) else '-' :: replaceWSL (d :: t))
      else c :: replaceWSL (d :: t) := rfl

theorem wordsL_eq_nil_iff : ∀ l : List Char, wordsL l = [] ↔ l.all isWS = true := by
  intro l
  induction l with
  | nil => simp [wordsL]
  | cons c cs ih =>
    by_cases hc : isWS c = true
    · cases cs with
      | nil => simp [wordsL, hc]
      | cons d t =>
        rw [wordsL_cons_cons, if_pos hc]
        simpa [hc] using ih
    · cases cs with
      | nil => simp [wordsL, hc]
      | cons d t =>
        rw [wordsL_cons_cons, if_neg hc]
        by_cases hd : isWS d = true
        · simp [hd, hc]
        · cases hw : wordsL (d :: t) <;> simp [hd, hc, hw]

theorem joinW_cons_cons (c : Char) (w : List Char) (ws : List (List Char)) :
    joinW ((c :: w) :: ws) = c :: joinW (w :: ws) := by
  cases ws <;> simp [joinW]

theorem wordsL_ne_nil_of_getLast (l : List Char)
    (hl : ∀ ch, l.getLast? = some ch → isWS ch = false) (hne : l ≠ []) :
    wordsL l ≠ [] := by
  intro hnil
  have hall := (wordsL_eq_nil_iff l).mp hnil
  cases h : l.getLast? with
  | none => exact hne (List.getLast?_eq_none_iff.mp h)
  | some ch =>
    have hmem := List.mem_of_getLast?_eq_some h
    have := List.all_eq_true.mp hall ch hmem
    rw [hl ch h] at this
    exact Bool.false_ne_true this

/-- On a list with no trailing whitespace, replacing each maximal whitespace
run with a hyphen is the hyphen-join of the whitespace-separated words, plus
a leading hyphen when the list starts with whitespace. -/
theorem replaceWSL_eq_joinW_wordsL :
    ∀ l : List Char, (∀ ch, l.getLast? = some ch → isWS ch = false) →
      replaceWSL l = (if l.head?.any isWS then ['-'] else []) ++ joinW (wordsL l) := by
  intro l
  induction l with
  | nil => intro _; simp [replaceWSL, wordsL, joinW]
  | cons c cs ih =>
    intro ht
    cases cs with
    | nil =>
      have hc : isWS c = false := ht c (by simp)
      simp [replaceWSL, wordsL, joinW, hc]
    | cons d t =>
      have ht' : ∀ ch, (d :: t).getLast? = some ch → isWS ch = false := by
        intro ch h
        exact ht ch (by rw [List.getLast?_cons_cons]; exact h)
      have ihdt := ih ht'
      rw [replaceWSL_cons_cons, wordsL_cons_cons]
      by_cases hc : isWS c = true
      · simp only [if_pos hc]
        by_cases hd : isWS d = true
        · rw [if_pos hd, ihdt]
          simp [hc, hd]
        · rw [if_neg hd, ihdt]
          simp [hc, hd]
      · simp only [if_neg hc]
        have hwne := wordsL_ne_nil_of_getLast (d :: t) ht' (by simp)
        by_cases hd : isWS d = true
        · rw [if_pos hd, ihdt]
          cases hw : wordsL (d :: t) with
          | nil => exact absurd hw hwne
          | cons w ws => simp [hc, hd, hw, joinW]
        · rw [if_neg hd, ihdt]
          cases hw : wordsL (d :: t) with
          | nil => exact absurd hw hwne
          | cons w ws => simp [hc, hd, hw, joinW_cons_cons]

theorem formatPart_eq_specFormatPart : ∀ p : String, formatPart p = specFormatPart p := by
  intro p
  unfold formatPart specFormatPart
  rw [orElse_empty_right]
  have hmark : (trimL p.data).head?.any isWS = false := by
    cases h : (trimL p.data).head? with
    | none => rfl
    | some ch => simpa using trimL_head p.data ch h
  rw [replaceWSL_eq_joinW_wordsL (trimL p.data) (trimL_getLast p.data), hmark]
  simp

theorem replaceWSL_eq_nil_iff : ∀ l : List Char, replaceWSL l = [] ↔ l = [] := by
  intro l
  induction l with
  | nil => simp [replaceWSL]
  | cons c cs ih =>
    simp only [List.cons_ne_nil, iff_false]
    intro h
    by_cases hc : isWS c = true
    · cases cs with
      | nil => simp [replaceWSL, hc] at h
      | cons d t =>
        rw [replaceWSL_cons_cons, if_pos hc] at h
        by_cases hd : isWS d = true
        · rw [if_pos hd] at h
          exact absurd (ih.mp h) (by simp)
        · rw [if_neg hd] at h
          simp at h
    · cases cs with
      | nil => simp [replaceWSL, hc] at h
      | cons d t =>
        rw [replaceWSL_cons_cons, if_neg hc] at h
        simp at h

theorem trimL_eq_nil_iff : ∀ l : List Char, trimL l = [] ↔ l.all isWS = true := by
  intro l
  unfold trimL
  rw [List.reverse_eq_nil_iff, List.dropWhile_eq_nil_iff]
  constructor
  · intro h
    rw [List.all_eq_true]
    intro x hx
    rw [← l.takeWhile_append_dropWhile isWS] at hx
    rcases List.mem_append.mp hx with h1 | h2
    · exact List.mem_takeWhile_imp h1
    · exact h x (by simpa using h2)
  · intro h x hx
    rw [List.mem_reverse] at hx
    exact List.all_eq_true.mp h x ((List.dropWhile_sublist isWS).subset hx)

theorem formatPart_eq_empty_iff : ∀ p : String, formatPart p = "" ↔ p.data.all isWS = true := by
  intro p
  unfold formatPart upperS
  rw [orElse_empty_right, String.ext_iff]
  show List.map Char.toUpper (replaceWSL (trimL p.data)) = [] ↔ _
  rw [List.map_eq_nil_iff, replaceWSL_eq_nil_iff, trimL_eq_nil_iff]

/-- C6: each free-text part is formatted by trimming, collapsing every
internal whitespace run to a single hyphen and upper-casing; parts that are
empty after formatting (exactly the all-whitespace parts) are dropped, with
the order of the remaining parts preserved; `  hello   world  ` formats to
`HELLO-WORLD` and an all-whitespace part formats to the empty string. -/
theorem c6_format_parts :
    (∀ parts : List String, filterP (fun p => p ≠ "") (parts.map formatPart) =
      (filterP (fun p => formatPart p ≠ "") parts).map formatPart) ∧
    (∀ p : String, formatPart p = specFormatPart p) ∧
    (∀ p : String, formatPart p = "" ↔ p.data.all isWS = true) ∧
    formatPart "  hello   world  " = "HELLO-WORLD" ∧
    formatPart "   " = "" := by
  refine ⟨?_, formatPart_eq_specFormatPart, formatPart_eq_empty_iff, by decide, by decide⟩
  intro parts
  exact filterP_map (fun p => p ≠ "") formatPart parts

/-- C6 (witness): the formatting equivalence evaluated at the worked
example. -/
theorem c6_format_parts_witness :
    formatPart "  hello   world  " = specFormatPart "  hello   world  " :=
  c6_format_parts.2.1 "  hello   world  "

/-! ## Claim C3 -/

theorem cAbbrLookup_ensureClient (d : HierarchyData) (r : List String) (c : String) :
    cAbbrLookup (ensureClient d r) c =
      match cAbbrLookup d c with
      | some a => some a
      | none => if col r 0 = c then some (orElse (col r 1) c) else none := by
  unfold ensureClient cAbbrLookup
  by_cases h : (lookupA d (col r 0)).isSome
  · rw [if_pos h]
    cases hd : lookupA d c with
    | some cl => simp
    | none =>
      by_cases hrc : col r 0 = c
      · rw [hrc, hd] at h
        simp at h
      · simp [hd, hrc]
  · rw [if_neg h]
    by_cases hrc : col r 0 = c
    · subst hrc
      have hn : lookupA d (col r 0) = none := Option.not_isSome_iff_eq_none.mp h
      rw [lookupA_append_self _ hn, hn]
      simp
    · rw [lookupA_append_ne d _ _ c hrc]
      cases hd : lookupA d c <;> simp [hrc]

theorem cAbbrLookup_ensureBrand (d : HierarchyData) (r : List String) (c : String) :
    cAbbrLookup (ensureBrand d r) c = cAbbrLookup d c := by
  unfold ensureBrand cAbbrLookup
  by_cases h2 : col r 2 = ""
  · rw [if_pos h2]
  · rw [if_neg h2]
    by_cases hrc : col r 0 = c
    · subst hrc
      rw [lookupA_alterA_self]
      cases hd : lookupA d (col r 0) with
      | none => simp
      | some cl =>
        simp only [Option.map_some']
        congr 1
        split <;> rfl
    · rw [lookupA_alterA_ne _ _ _ _ (Ne.symm hrc)]

theorem cAbbrLookup_pushProj (d : HierarchyData) (r : List String) (c : String) :
    cAbbrLookup (pushProj d r) c = cAbbrLookup d c := by
  unfold pushProj cAbbrLookup
  split
  · by_cases hrc : col r 0 = c
    · subst hrc
      rw [lookupA_alterA_self]
      cases hd : lookupA d (col r 0) <;> simp
    · rw [lookupA_alterA_ne _ _ _ _ (Ne.symm hrc)]
  · rfl

theorem cAbbrLookup_hierStep (d : HierarchyData) (r : List String) (c : String)
    (hc : c ≠ "") :
    cAbbrLookup (hierStep d r) c =
      match cAbbrLookup d c with
      | some a => some a
      | none => if col r 0 = c then some (orElse (col r 1) c) else none := by
  unfold hierStep
  by_cases h0 : col r 0 = ""
  · rw [if_pos h0]
    have hne : col r 0 ≠ c := fun hh => hc (hh ▸ h0)
    cases hd : cAbbrLookup d c <;> simp [hd, hne]
  · rw [if_neg h0, cAbbrLookup_pushProj, cAbbrLookup_ensureBrand, cAbbrLookup_ensureClient]

theorem cAbbrLookup_foldl (rows : List (List String)) :
    ∀ (d : HierarchyData) (c : String), c ≠ "" →
      cAbbrLookup (rows.foldl hierStep d) c =
        match cAbbrLookup d c with
        | some a => some a
        | none => clientAbbrSpec rows c := by
  induction rows with
  | nil =>
    intro d c hc
    simp only [List.foldl_nil, clientAbbrSpec, firstWhere]
    cases cAbbrLookup d c <;> simp
  | cons r rs ih =>
    intro d c hc
    rw [List.foldl_cons, ih _ c hc, cAbbrLookup_hierStep d r c hc]
    cases hd : cAbbrLookup d c with
    | some a => simp
    | none =>
      by_cases hrc : col r 0 = c <;> simp [clientAbbrSpec, firstWhere, hrc]

theorem lookupA_ensureClient_self_isSome (d : HierarchyData) (r : List String) :
    (lookupA (ensureClient d r) (col r 0)).isSome = true := by
  unfold ensureClient
  by_cases h : (lookupA d (col r 0)).isSome
  · rw [if_pos h]
    exact h
  · rw [if_neg h, lookupA_append_self _ (Option.not_isSome_iff_eq_none.mp h)]
    rfl

theorem bLookup_ensureClient (d : HierarchyData) (r : List String) (c b : String) :
    bLookup (ensureClient d r) c b = bLookup d c b := by
  unfold ensureClient bLookup
  by_cases h : (lookupA d (col r 0)).isSome
  · rw [if_pos h]
  · rw [if_neg h]
    by_cases hrc : col r 0 = c
    · subst hrc
      have hn : lookupA d (col r 0) = none := Option.not_isSome_iff_eq_none.mp h
      rw [lookupA_append_self _ hn, hn]
      simp [lookupA]
    · rw [lookupA_append_ne _ _ _ _ hrc]

theorem bLookup_ensureBrand (d : HierarchyData) (r : List String) (c b : String)
    (hb : b ≠ "") :
    bLookup (ensureBrand d r) c b =
      if col r 0 = c ∧ col r 2 = b ∧ (lookupA d c).isSome = true ∧ bLookup d c b = none
      then some ⟨orElse (col r 3) b, []⟩
      else bLookup d c b := by
  unfold ensureBrand
  by_cases h2 : col r 2 = ""
  · rw [if_pos h2]
    have hne : ¬(col r 0 = c ∧ col r 2 = b ∧ (lookupA d c).isSome = true ∧
        bLookup d c b = none) := fun hh => hb (hh.2.1 ▸ h2)
    rw [if_neg hne]
  · rw [if_neg h2]
    by_cases hrc : col r 0 = c
    · subst hrc
      unfold bLookup
      rw [lookupA_alterA_self]
      cases hd : lookupA d (col r 0) with
      | none => simp
      | some cl =>
        simp only [Option.map_some', Option.some_bind, Option.isSome_some,
          eq_self_iff_true, true_and]
        by_cases hbr : (lookupA cl.brands (col r 2)).isSome = true
        · rw [if_pos hbr]
          have hne2 : ¬(col r 2 = b ∧ lookupA cl.brands b = none) := by
            rintro ⟨hrb2, hnone⟩
            rw [← hrb2] at hnone
            rw [hnone] at hbr
            simp at hbr
          rw [if_neg hne2]
        · rw [if_neg hbr]
          have hnone : lookupA cl.brands (col r 2) = none :=
            Option.not_isSome_iff_eq_none.mp hbr
          dsimp only
          by_cases hrb : col r 2 = b
          · subst hrb
            rw [lookupA_append_self _ hnone]
            rw [if_pos ⟨rfl, hnone⟩]
          · rw [lookupA_append_ne _ _ _ _ hrb]
            rw [if_neg (fun hh => hrb hh.1)]
    · unfold bLookup
      rw [lookupA_alterA_ne _ _ _ _ (Ne.symm hrc)]
      rw [if_neg (fun hh => hrc hh.1)]

theorem bLookup_pushProj (d : HierarchyData) (r : List String) (c b : String)
    (hb : b ≠ "") :
    bLookup (pushProj d r) c b =
      if col r 0 = c ∧ col r 2 = b ∧ col r 4 ≠ "" ∧ upperS (col r 4) ≠ "N/A" then
        (bLookup d c b).map (fun bd => ⟨bd.abbr, bd.projects ++ [mkProj r]⟩)
      else bLookup d c b := by
  unfold pushProj
  by_cases hg : col r 4 ≠ "" ∧ upperS (col r 4) ≠ "N/A" ∧ col r 2 ≠ ""
  · rw [if_pos hg]
    by_cases hrc : col r 0 = c
    · subst hrc
      unfold bLookup
      rw [lookupA_alterA_self]
      cases hd : lookupA d (col r 0) with
      | none => simp [hd]
      | some cl =>
        simp only [hd, Option.map_some', Option.some_bind]
        by_cases hrb : col r 2 = b
        · subst hrb
          rw [lookupA_alterA_self]
          cases hbd : lookupA cl.brands (col r 2) <;> simp [hg.1, hg.2.1]
        · rw [lookupA_alterA_ne _ _ _ _ (Ne.symm hrb)]
          simp [hrb]
    · unfold bLookup
      rw [lookupA_alterA_ne _ _ _ _ (Ne.symm hrc)]
      simp [hrc]
  · rw [if_neg hg]
    have : ¬(col r 0 = c ∧ col r 2 = b ∧ col r 4 ≠ "" ∧ upperS (col r 4) ≠ "N/A") := by
      intro ⟨_, h2, h4, h5⟩
      exact hg ⟨h4, h5, h2 ▸ hb⟩
    rw [if_neg this]

theorem bLookup_hierStep (d : HierarchyData) (r : List String) (c b : String)
    (hc : c ≠ "") (hb : b ≠ "") :
    bLookup (hierStep d r) c b =
      if col r 0 = c ∧ col r 2 = b then
        match bLookup d c b with
        | some bd => some ⟨bd.abbr, bd.projects ++
            (if col r 4 ≠ "" ∧ upperS (col r 4) ≠ "N/A" then [mkProj r] else [])⟩
        | none => some ⟨orElse (col r 3) b,
            if col r 4 ≠ "" ∧ upperS (col r 4) ≠ "N/A" then [mkProj r] else []⟩
      else bLookup d c b := by
  unfold hierStep
  by_cases h0 : col r 0 = ""
  · rw [if_pos h0]
    have hne : ¬(col r 0 = c ∧ col r 2 = b) := fun hh => hc (hh.1 ▸ h0)
    rw [if_neg hne]
  · rw [if_neg h0,
      bLookup_pushProj _ _ _ _ hb, bLookup_ensureBrand _ _ _ _ hb, bLookup_ensureClient]
    by_cases hrc : col r 0 = c
    · by_cases hrb : col r 2 = b
      · have hsome : (lookupA (ensureClient d r) c).isSome = true := by
          rw [← hrc]
          exact lookupA_ensureClient_self_isSome d r
        by_cases hp : col r 4 ≠ "" ∧ upperS (col r 4) ≠ "N/A"
        · cases hx : bLookup d c b <;>
            simp [hrc, hrb, hp, hx, hsome]
        · cases hx : bLookup d c b <;>
            simp [hrc, hrb, hp, hx, hsome]
      · have hne : ¬(col r 0 = c ∧ col r 2 = b) := fun hh => hrb hh.2
        have hne4 : ¬(col r 0 = c ∧ col r 2 = b ∧ col r 4 ≠ "" ∧ upperS (col r 4) ≠ "N/A") :=
          fun hh => hrb hh.2.1
        have hne3 : ¬(col r 0 = c ∧ col r 2 = b ∧
            (lookupA (ensureClient d r) c).isSome = true ∧ bLookup d c b = none) :=
          fun hh => hrb hh.2.1
        rw [if_neg hne, if_neg hne4, if_neg hne3]
    · have hne : ¬(col r 0 = c ∧ col r 2 = b) := fun hh => hrc hh.1
      have hne4 : ¬(col r 0 = c ∧ col r 2 = b ∧ col r 4 ≠ "" ∧ upperS (col r 4) ≠ "N/A") :=
        fun hh => hrc hh.1
      have hne3 : ¬(col r 0 = c ∧ col r 2 = b ∧
          (lookupA (ensureClient d r) c).isSome = true ∧ bLookup d c b = none) :=
        fun hh => hrc hh.1
      rw [if_neg hne, if_neg hne4, if_neg hne3]

theorem filterP_cons {α : Type} (p : α → Prop) [DecidablePred p] (a : α) (l : List α) :
    filterP p (a :: l) = if p a then a :: filterP p l else filterP p l := rfl

theorem projSpec_cons (r : List String) (rs : List (List String)) (c b : String) :
    projSpec (r :: rs) c b =
      if col r 0 = c ∧ col r 2 = b ∧ col r 4 ≠ "" ∧ upperS (col r 4) ≠ "N/A" then
        mkProj r :: projSpec rs c b
      else projSpec rs c b := by
  by_cases hcond : col r 0 = c ∧ col r 2 = b ∧ col r 4 ≠ "" ∧ upperS (col r 4) ≠ "N/A"
  · rw [if_pos hcond]
    unfold projSpec
    rw [filterP_cons, if_pos hcond]
    rfl
  · rw [if_neg hcond]
    unfold projSpec
    rw [filterP_cons, if_neg hcond]

theorem brandSpec_cons_hit {r : List String} {c b : String} (rs : List (List String))
    (h : col r 0 = c ∧ col r 2 = b) :
    brandSpec (r :: rs) c b = some ⟨orElse (col r 3) b, projSpec (r :: rs) c b⟩ := by
  unfold brandSpec
  simp [firstWhere, h]

theorem brandSpec_cons_skip {r : List String} {c b : String} (rs : List (List String))
    (h : ¬(col r 0 = c ∧ col r 2 = b)) :
    brandSpec (r :: rs) c b = brandSpec rs c b := by
  unfold brandSpec
  rw [show firstWhere (fun r' => col r' 0 = c ∧ col r' 2 = b) (r :: rs) =
      firstWhere (fun r' => col r' 0 = c ∧ col r' 2 = b) rs by simp [firstWhere, h]]
  have hp : ¬(col r 0 = c ∧ col r 2 = b ∧ col r 4 ≠ "" ∧ upperS (col r 4) ≠ "N/A") :=
    fun hh => h ⟨hh.1, hh.2.1⟩
  simp [projSpec_cons, hp]

theorem bLookup_foldl (rows : List (List String)) :
    ∀ (d : HierarchyData) (c b : String), c ≠ "" → b ≠ "" →
      bLookup (rows.foldl hierStep d) c b =
        match bLookup d c b with
        | some bd => some ⟨bd.abbr, bd.projects ++ projSpec rows c b⟩
        | none => brandSpec rows c b := by
  induction rows with
  | nil =>
    intro d c b hc hb
    simp only [List.foldl_nil, projSpec, brandSpec, filterP, firstWhere, List.map_nil]
    cases bLookup d c b <;> simp
  | cons r rs ih =>
    intro d c b hc hb
    rw [List.foldl_cons, ih _ c b hc hb, bLookup_hierStep d r c b hc hb]
    by_cases hrcb : col r 0 = c ∧ col r 2 = b
    · rw [if_pos hrcb]
      by_cases hp : col r 4 ≠ "" ∧ upperS (col r 4) ≠ "N/A"
      · cases hx : bLookup d c b <;>
          simp [hx, hp, brandSpec_cons_hit rs hrcb, projSpec_cons, hrcb]
      · cases hx : bLookup d c b <;>
          simp [hx, hp, brandSpec_cons_hit rs hrcb, projSpec_cons, hrcb]
    · rw [if_neg hrcb, brandSpec_cons_skip rs hrcb]
      have hp : ¬(col r 0 = c ∧ col r 2 = b ∧ col r 4 ≠ "" ∧ upperS (col r 4) ≠ "N/A") :=
        fun hh => hrcb ⟨hh.1, hh.2.1⟩
      rw [projSpec_cons, if_neg hp]

/-- C3: for every hierarchy sheet, a client entry exists exactly when some
row names it (non-empty), its abbreviation coming from the first such row
(defaulting to the client name, never overwritten later); a brand entry
exists under its client exactly when some row names both, its abbreviation
coming from the first such row; and the brand's project list consists of the
rows naming that client and brand whose project name is present and not
case-insensitively `N/A`, in row order, duplicates kept. -/
theorem c3_hierarchy_parse :
    ∀ (csv : String) (c b : String), c ≠ "" → b ≠ "" →
      cAbbrLookup (parseHierarchyData csv) c = clientAbbrSpec (csvRows csv) c ∧
      bLookup (parseHierarchyData csv) c b = brandSpec (csvRows csv) c b := by
  intro csv c b hc hb
  unfold parseHierarchyData
  constructor
  · rw [cAbbrLookup_foldl (csvRows csv) [] c hc]
    rfl
  · rw [bLookup_foldl (csvRows csv) [] c b hc hb]
    rfl

/-- C3 (witness): the parse characterisation at a concrete sheet with a
repeated client and brand. -/
theorem c3_hierarchy_parse_witness :
    (("A" : String) ≠ "" ∧ ("B" : String) ≠ "") ∧
    (cAbbrLookup (parseHierarchyData wHierCsv) "A" = clientAbbrSpec (csvRows wHierCsv) "A" ∧
     bLookup (parseHierarchyData wHierCsv) "A" "B" = brandSpec (csvRows wHierCsv) "A" "B") :=
  ⟨⟨by decide, by decide⟩, c3_hierarchy_parse wHierCsv "A" "B" (by decide) (by decide)⟩

/-! ## Claim C4 -/

theorem goodHier_hierStep (d : HierarchyData) (r : List String) (h : goodHier d) :
    goodHier (hierStep d r) := by
  unfold hierStep
  by_cases h0 : col r 0 = ""
  · rw [if_pos h0]
    exact h
  · rw [if_neg h0]
    have h1 : goodHier (ensureClient d r) := by
      unfold ensureClient
      split
      · exact h
      · intro e he
        rcases List.mem_append.mp he with hh | hh
        · exact h e hh
        · rcases List.mem_singleton.mp hh with rfl
          exact ⟨h0, orElse_ne_empty _ h0, by intro be hbe; simp at hbe⟩
    have h2g : goodHier (ensureBrand (ensureClient d r) r) := by
      unfold ensureBrand
      by_cases hb2 : col r 2 = ""
      · rw [if_pos hb2]
        exact h1
      · rw [if_neg hb2]
        refine forall_mem_alterA h1 ?_
        intro v hv
        dsimp only at hv ⊢
        by_cases hbr : (lookupA v.brands (col r 2)).isSome = true
        · simp only [if_pos hbr]
          exact hv
        · simp only [if_neg hbr]
          refine ⟨hv.1, hv.2.1, ?_⟩
          intro be hbe
          rcases List.mem_append.mp hbe with hh | hh
          · exact hv.2.2 be hh
          · rcases List.mem_singleton.mp hh with rfl
            exact ⟨hb2, orElse_ne_empty _ hb2, by intro p hp; simp at hp⟩
    unfold pushProj
    by_cases hp : col r 4 ≠ "" ∧ upperS (col r 4) ≠ "N/A" ∧ col r 2 ≠ ""
    · rw [if_pos hp]
      refine forall_mem_alterA h2g ?_
      intro v hv
      dsimp only at hv ⊢
      refine ⟨hv.1, hv.2.1, ?_⟩
      refine forall_mem_alterA hv.2.2 ?_
      intro bd hbd
      dsimp only at hbd ⊢
      refine ⟨hbd.1, hbd.2.1, ?_⟩
      intro p hp2
      rcases List.mem_append.mp hp2 with hh | hh
      · exact hbd.2.2 p hh
      · rcases List.mem_singleton.mp hh with rfl
        exact ⟨hp.1, orElse_ne_empty _ hp.1⟩
    · rw [if_neg hp]
      exact h2g

theorem goodHier_foldl (rows : List (List String)) :
    ∀ d : HierarchyData, goodHier d → goodHier (rows.foldl hierStep d) := by
  induction rows with
  | nil => intro d h; exact h
  | cons r rs ih => intro d h; exact ih _ (goodHier_hierStep d r h)

/-- C4: parsing is total and lenient — a row with fewer columns than
expected reads its missing trailing fields as the empty string, so every
parsed client, brand, project and list item has a non-empty name and a
non-empty abbreviation, the abbreviation falling back to the display name
whenever the abbreviation column is absent or empty. -/
theorem c4_lenient_parse :
    ∀ csv : String,
      goodHier (parseHierarchyData csv) ∧
      (∀ item ∈ parseListData csv, item.name ≠ "" ∧ item.abbr ≠ "") ∧
      (∀ cols : List String, col cols 1 = "" →
        (mkListItem cols).abbr = (mkListItem cols).name) ∧
      (∀ r : List String, col r 5 = "" → (mkProj r).abbr = (mkProj r).name) ∧
      (∀ (cols : List String) (i : Nat), cols.length ≤ i → col cols i = "") ∧
      (∀ (c : String) (r : List String), c ≠ "" →
        firstWhere (fun r' => col r' 0 = c) (csvRows csv) = some r → col r 1 = "" →
        cAbbrLookup (parseHierarchyData csv) c = some c) ∧
      (∀ (c b : String) (r : List String), c ≠ "" → b ≠ "" →
        firstWhere (fun r' => col r' 0 = c ∧ col r' 2 = b) (csvRows csv) = some r →
        col r 3 = "" →
        (bLookup (parseHierarchyData csv) c b).map BrandData.abbr = some b) := by
  intro csv
  refine ⟨goodHier_foldl (csvRows csv) [] (by intro e he; simp at he),
    ?_, ?_, ?_, ?_, ?_, ?_⟩
  · intro item hitem
    have h := mem_filterP hitem
    refine ⟨h.1, ?_⟩
    rcases List.mem_map.mp h.2 with ⟨cols, _, rfl⟩
    have hname := h.1
    unfold mkListItem at hname ⊢
    dsimp only at hname ⊢
    exact orElse_ne_empty _ hname
  · intro cols h1
    unfold mkListItem
    dsimp only
    rw [h1]
    simp [orElse]
  · intro r h5
    unfold mkProj
    dsimp only
    rw [h5]
    simp [orElse]
  · intro cols i hlen
    unfold col
    exact List.getD_eq_default cols "" hlen
  · intro c r hc hfw h1
    unfold parseHierarchyData
    rw [cAbbrLookup_foldl (csvRows csv) [] c hc]
    show clientAbbrSpec (csvRows csv) c = some c
    unfold clientAbbrSpec
    rw [hfw]
    simp [h1, orElse]
  · intro c b r hc hb hfw h3
    unfold parseHierarchyData
    rw [bLookup_foldl (csvRows csv) [] c b hc hb]
    show (brandSpec (csvRows csv) c b).map BrandData.abbr = some b
    unfold brandSpec
    rw [hfw]
    simp [h3, orElse]

/-- C4 (witness): the leniency facts at concrete rows and sheets. -/
theorem c4_lenient_parse_witness :
    (("A", (⟨"A1", [("B", ⟨"B1", [⟨"P", "P1"⟩, ⟨"Q", "Q"⟩]⟩),
        ("C", ⟨"C", [⟨"R", "QQ"⟩]⟩)]⟩ : ClientData)).1 ≠ "") ∧
    (("A" : String) ≠ "" ∧ ("A1" : String) ≠ "") ∧
    (mkListItem ["X"]).abbr = (mkListItem ["X"]).name ∧
    (mkProj ["a", "b", "c", "d", "P"]).abbr = (mkProj ["a", "b", "c", "d", "P"]).name ∧
    col ["a"] 3 = "" ∧
    cAbbrLookup (parseHierarchyData wDefCsv) "A" = some "A" ∧
    (bLookup (parseHierarchyData wDefCsv) "A" "B").map BrandData.abbr = some "B" :=
  ⟨((c4_lenient_parse wHierCsv).1 _ (by decide)).1,
   (c4_lenient_parse wHierCsv).2.1 ⟨"A", "A1"⟩ (by decide),
   (c4_lenient_parse wHierCsv).2.2.1 ["X"] (by decide),
   (c4_lenient_parse wHierCsv).2.2.2.1 ["a", "b", "c", "d", "P"] (by decide),
   (c4_lenient_parse wHierCsv).2.2.2.2.1 ["a"] 3 (by decide),
   (c4_lenient_parse wDefCsv).2.2.2.2.2.1 "A" ["A", "", "B", "", "P"]
     (by decide) (by decide) (by decide),
   (c4_lenient_parse wDefCsv).2.2.2.2.2.2 "A" "B" ["A", "", "B", "", "P"]
     (by decide) (by decide) (by decide) (by decide)⟩

/-! ## Claim C7 -/

/-- C7: saving with an empty or whitespace-only preset name is rejected with
the user-facing alert and changes nothing; with a non-whitespace name the
preset is inserted under the verbatim name (overwriting an existing entry of
the same name, leaving all other entries untouched) and the full updated
mapping is persisted to the durable store. -/
theorem c7_save_preset :
    ∀ s : AppState,
      (trimS s.presetName = "" → handleSavePreset s = (s, some SAVE_ALERT)) ∧
      (trimS s.presetName ≠ "" →
        (handleSavePreset s).2 = none ∧
        lookupA (handleSavePreset s).1.presets s.presetName =
          some ⟨s.presetName, ⟨s.selectedClient, s.selectedBrand, s.selectedProject,
            s.selectedMedium, s.selectedMaterial, s.sizeWidth, s.sizeHeight,
            s.sizeUnit, s.customTextParts⟩⟩ ∧
        (handleSavePreset s).1.stored = (handleSavePreset s).1.presets ∧
        ∀ k, k ≠ s.presetName →
          lookupA (handleSavePreset s).1.presets k = lookupA s.presets k) := by
  intro s
  constructor
  · intro h
    simp [handleSavePreset, h]
  · intro h
    refine ⟨?_, ?_, ?_, ?_⟩
    · simp [handleSavePreset, if_neg h]
    · simp only [handleSavePreset, if_neg h]
      exact lookupA_insertOrReplace_self ..
    · simp [handleSavePreset, if_neg h]
    · intro k hk
      simp only [handleSavePreset, if_neg h]
      exact lookupA_insertOrReplace_ne _ _ _ _ hk

/-- C7 (witness): saving the concrete state whose preset name is `x`. -/
theorem c7_save_preset_witness :
    (handleSavePreset saveState1).2 = none ∧
    lookupA (handleSavePreset saveState1).1.presets saveState1.presetName =
      some ⟨saveState1.presetName, ⟨saveState1.selectedClient, saveState1.selectedBrand,
        saveState1.selectedProject, saveState1.selectedMedium, saveState1.selectedMaterial,
        saveState1.sizeWidth, saveState1.sizeHeight, saveState1.sizeUnit,
        saveState1.customTextParts⟩⟩ ∧
    (handleSavePreset saveState1).1.stored = (handleSavePreset saveState1).1.presets ∧
    lookupA (handleSavePreset saveState1).1.presets "y" = lookupA saveState1.presets "y" := by
  have h := (c7_save_preset saveState1).2 (by decide)
  exact ⟨h.1, h.2.1, h.2.2.1, h.2.2.2 "y" (by decide)⟩

/-! ## Claim C8 -/

/-- C8 (counterexample): loading a preset whose stored size unit is the empty
string restores `px` instead of the stored value, so not every field comes
back equal to the snapshot. -/
theorem c8_counterexample :
    lookupA loadState.presets "P" = some emptyUnitPreset ∧
    emptyUnitPreset.values.sizeUnit = "" ∧
    (handleLoadPreset loadState "P").sizeUnit ≠ emptyUnitPreset.values.sizeUnit := by
  refine ⟨rfl, rfl, ?_⟩
  decide

/-- C8 (amended): loading an unknown preset name is a no-op; loading an
existing preset restores every selection-state field to the stored snapshot
value — untouched by the cascade rule, which is suppressed during the load —
except that an empty stored size unit is replaced by the default `px`. -/
theorem c8_load_preset :
    ∀ (s : AppState) (name : String),
      (lookupA s.presets name = none → handleLoadPreset s name = s) ∧
      (∀ p : Preset, lookupA s.presets name = some p →
        (handleLoadPreset s name).selectedClient = p.values.selectedClient ∧
        (handleLoadPreset s name).selectedBrand = p.values.selectedBrand ∧
        (handleLoadPreset s name).selectedProject = p.values.selectedProject ∧
        (handleLoadPreset s name).selectedMedium = p.values.selectedMedium ∧
        (handleLoadPreset s name).selectedMaterial = p.values.selectedMaterial ∧
        (handleLoadPreset s name).sizeWidth = p.values.sizeWidth ∧
        (handleLoadPreset s name).sizeHeight = p.values.sizeHeight ∧
        (handleLoadPreset s name).sizeUnit = orElse p.values.sizeUnit "px" ∧
        (handleLoadPreset s name).customTextParts = p.values.customTextParts) := by
  intro s name
  constructor
  · intro h
    simp [handleLoadPreset, h]
  · intro p hp
    simp [handleLoadPreset, hp, refreshName, orElse_empty_right]

/-- C8 (witness): the load behaviour at concrete states, for an unknown and
for a present preset name. -/
theorem c8_load_preset_witness :
    handleLoadPreset loadState "Q" = loadState ∧
    (handleLoadPreset loadState "P").sizeUnit = orElse emptyUnitPreset.values.sizeUnit "px" :=
  ⟨(c8_load_preset loadState "Q").1 (by decide),
   ((c8_load_preset loadState "P").2 emptyUnitPreset (by decide)).2.2.2.2.2.2.2.1⟩

/-! ## Claim C9 -/

/-- C9: after the name-assembly effect, the over-limit flag is set exactly
when the assembled name is longer than `MAX_FILENAME_LENGTH` (220); when the
flag is set the copy action does nothing; and the generated name is always
the plain assembled string, unaltered by the limit. -/
theorem c9_length_guard :
    ∀ s : AppState,
      ((refreshName s).isNameTooLong = true ↔
        (refreshName s).generatedName.length > MAX_FILENAME_LENGTH) ∧
      ((refreshName s).isNameTooLong = true → handleCopy (refreshName s) = none) ∧
      (refreshName s).generatedName = assembleName s := by
  intro s
  refine ⟨?_, ?_, rfl⟩
  · simp [refreshName]
  · intro h
    simp [handleCopy, h]

/-- C9 (witness): a 221-character name sets the flag and disables copying. -/
theorem c9_length_guard_witness :
    (refreshName longState).isNameTooLong = true ∧
    handleCopy (refreshName longState) = none := by
  have h : (refreshName longState).isNameTooLong = true := by decide
  exact ⟨h, (c9_length_guard longState).2.1 h⟩

/-! ## Claim C10 -/

/-- C10: the emptiness check is on the trimmed name but the map key is the
verbatim name, so saving under `x` and then under `  x  ` — names that differ
only in surrounding whitespace — yields two distinct presets: both keys are
in the preset list and the second save leaves the first entry untouched. -/
theorem c10_verbatim_keys :
    saveState4.presets.map Prod.fst = ["x", "  x  "] ∧
    lookupA saveState4.presets "x" = lookupA saveState2.presets "x" ∧
    (lookupA saveState2.presets "x").isSome = true ∧
    trimS "  x  " = trimS "x" := by
  refine ⟨?_, ?_, ?_, ?_⟩ <;> decide

end FNG
